import Mathlib

/-!
Verification development for the wasm2env scanner.

The repository statically infers environment-variable names referenced by a
WebAssembly module.  The binary-format decoder (the `wasmparser` crate) is an
external collaborator, so the embedding starts from the decoded structure of a
module: active data segments, global initializer expressions, and function
bodies given as flat operator streams.  Everything downstream of the decoder
(memory-image construction, the abstract stack interpreter, string extraction,
the candidate classifier, and the orchestration in `scan_wasm_bytes`) is
embedded here directly from `src/lib.rs`; the separate pipeline of the
command-line binary is embedded from `src/main.rs`.

Machine integers: Rust `i32` values are modelled as `Int` with explicit
two's-complement normalisation (`toI32`) at the one wrapping operation the
source performs (`i32.add`), and `u32` values as `Nat` with explicit `% 2 ^ 32`
where the source casts or wraps.
-/

namespace Wasm2Env

/-- Two's-complement normalisation of an integer into the `i32` range,
mirroring Rust `i32::wrapping_add` results. -/
def toI32 (n : Int) : Int := (n + 2 ^ 31) % 2 ^ 32 - 2 ^ 31

/-- Reinterpretation of an `i32` value as a `u32`, mirroring Rust `as u32`. -/
def toU32 (n : Int) : Nat := (n % 2 ^ 32).toNat

/-- Abstract stack value of the interpreter: `Value` in `src/lib.rs` (and
`AbstractValue` in `src/main.rs`, which is identical). -/
inductive Value where
  | Known : Int → Value
  | Unknown : Value
deriving DecidableEq

/-- Decoded operators, grouped exactly as finely as the two interpreters
distinguish them.  Each constructor names the `wasmparser::Operator` cases it
stands for:
`i32Const` = `I32Const`; `wideConst` = `I64Const`/`F32Const`/`F64Const`;
`globalGet`/`localGet`/`localSet`/`localTee` = the homonymous operators;
`i32Add`/`i32Sub`/`i32Mul` = the homonymous operators;
`i32Div` = `I32DivS`/`I32DivU`; `i32Rem` = `I32RemS`/`I32RemU`;
`i32Eqz` = `I32Eqz`; `i32CmpBasic` = `I32Eq`/`I32Ne`/`I32LtS`/`I32LtU`;
`i32CmpExtra` = `I32GtS`/`I32GtU`/`I32LeS`/`I32LeU`/`I32GeS`/`I32GeU`;
`i32BitOp` = `I32And`/`I32Or`/`I32Xor`/`I32Shl`/`I32ShrS`/`I32ShrU`/
`I32Rotl`/`I32Rotr`; `memLoad` = the load operators; `memStore` = the store
operators; `call` = `Call`/`CallIndirect`; `dropV` = `Drop`;
`selectV` = `Select`; `ret` = `Return`; `ctrl` = `Block`/`Loop`/`If`/`Else`/
`End`/`Br`/`BrIf`/`BrTable`/`Unreachable`/`Nop`; `other` = anything else. -/
inductive Op where
  | i32Const : Int → Op
  | wideConst : Op
  | globalGet : Nat → Op
  | localGet : Nat → Op
  | localSet : Nat → Op
  | localTee : Nat → Op
  | i32Add : Op
  | i32Sub : Op
  | i32Mul : Op
  | i32Div : Op
  | i32Rem : Op
  | i32Eqz : Op
  | i32CmpBasic : Op
  | i32CmpExtra : Op
  | i32BitOp : Op
  | memLoad : Op
  | memStore : Op
  | call : Op
  | dropV : Op
  | selectV : Op
  | ret : Op
  | ctrl : Op
  | other : Op
deriving DecidableEq

/-- A placed data segment: `DataSegment` in the source (offset already a
`u32`). -/
structure DataSegment where
  offset : Nat
  data : List Nat
deriving DecidableEq

/-- Kind of a decoded data-section entry (`wasmparser::DataKind`): active
entries carry their offset expression as a decoded operator list. -/
inductive DataKind where
  | active : List Op → DataKind
  | passive : DataKind
deriving DecidableEq

/-- A decoded data-section entry. -/
structure DataEntry where
  kind : DataKind
  data : List Nat
deriving DecidableEq

/-- A decoded function body.  `ops` is the operator stream the reader yields;
`malformed = true` means the reader fails with a decode error after yielding
`ops` (a truncated or malformed body; a body whose local declarations are
already unreadable is modelled as `ops = []`, `malformed = true`). -/
structure FuncBody where
  ops : List Op
  malformed : Bool
deriving DecidableEq

/-- A decoded module: exactly the payloads the two scanners consume.  The
section framing itself is the collaborator's concern; a value of this type
corresponds to a byte input whose module-level decoding succeeded. -/
structure Module where
  dataEntries : List DataEntry
  globalInits : List (List Op)
  funcs : List FuncBody

/-- Sparse memory image: address (u32 value) to byte. -/
def MemMap := Nat → Option Nat

/-- The empty memory image. -/
def emptyMem : MemMap := fun _ => none

/-- HashMap insert: later writes win. -/
def memInsert (m : MemMap) (a b : Nat) : MemMap :=
  fun x => if x = a then some b else m x

/-- Writing one segment's bytes at consecutive addresses
(`map.insert(segment.offset + i as u32, byte)`); the address computation
wraps as `u32` addition does. -/
def segWrite : MemMap → Nat → List Nat → MemMap
  | m, _, [] => m
  | m, off, b :: rest => segWrite (memInsert m (off % 2 ^ 32) b) (off + 1) rest

/-- `build_memory_map` from `src/lib.rs` (the copy in `src/main.rs` is
textually identical). -/
def build_memory_map (segments : List DataSegment) : MemMap :=
  segments.foldl (fun m s => segWrite m s.offset s.data) emptyMem

/-- The payload of an `i32.const` operator, `none` for any other operator
(the `if let Operator::I32Const { value } = op` test). -/
def constPayload : Op → Option Int
  | Op.i32Const v => some v
  | _ => none

/-- `extract_i32_const` from `src/lib.rs`: scan the constant expression's
operator stream and return the first `i32.const` payload found, if any.
(`extract_const_i32` in `src/main.rs` is textually identical.) -/
def extract_i32_const : List Op → Option Int
  | [] => none
  | op :: rest =>
    match constPayload op with
    | some v => some v
    | none => extract_i32_const rest

/-- `collect_data_segments` from `src/lib.rs`: keep active entries whose
offset expression yields a constant, casting the offset `as u32`. -/
def collect_data_segments : List DataEntry → List DataSegment
  | [] => []
  | e :: rest =>
    match e.kind with
    | DataKind.active offExpr =>
      match extract_i32_const offExpr with
      | some off => ⟨toU32 off, e.data⟩ :: collect_data_segments rest
      | none => collect_data_segments rest
    | DataKind.passive => collect_data_segments rest

/-- `collect_globals` from `src/lib.rs`: push the constant initializers, in
section order, into a plain vector (note: skipped globals leave no gap, so
later constants shift down to lower indices). -/
def collect_globals : List (List Op) → List Int
  | [] => []
  | e :: rest =>
    match extract_i32_const e with
    | some v => v :: collect_globals rest
    | none => collect_globals rest

/-- Reading `n` consecutive bytes of the memory image starting at `p`;
`none` as soon as an address is absent. -/
def readBytes (m : MemMap) : Nat → Nat → Option (List Nat)
  | _, 0 => some []
  | p, n + 1 =>
    match m p, readBytes m (p + 1) n with
    | some b, some rest => some (b :: rest)
    | _, _ => none

/-- Is `b` a UTF-8 continuation byte. -/
def contByte (b : Nat) : Bool := 0x80 ≤ b && b < 0xC0

/-- Strict UTF-8 decoding of a byte sequence (shortest form only, surrogates
and values above `0x10FFFF` rejected), the validation performed by Rust
`String::from_utf8`. -/
def utf8Decode : List Nat → Option (List Char)
  | [] => some []
  | b :: rest =>
    if b < 0x80 then (utf8Decode rest).map (fun cs => Char.ofNat b :: cs)
    else if b < 0xC2 then none
    else if b < 0xE0 then
      match rest with
      | b1 :: r =>
        if contByte b1 then
          (utf8Decode r).map (fun cs => Char.ofNat ((b - 0xC0) * 0x40 + (b1 - 0x80)) :: cs)
        else none
      | [] => none
    else if b < 0xF0 then
      match rest with
      | b1 :: b2 :: r =>
        if (if b = 0xE0 then 0xA0 else 0x80) ≤ b1 && b1 < (if b = 0xED then 0xA0 else 0xC0)
            && contByte b2 then
          (utf8Decode r).map
            (fun cs => Char.ofNat ((b - 0xE0) * 0x1000 + (b1 - 0x80) * 0x40 + (b2 - 0x80)) :: cs)
        else none
      | _ => none
    else if b < 0xF5 then
      match rest with
      | b1 :: b2 :: b3 :: r =>
        if (if b = 0xF0 then 0x90 else 0x80) ≤ b1 && b1 < (if b = 0xF4 then 0x90 else 0xC0)
            && contByte b2 && contByte b3 then
          (utf8Decode r).map
            (fun cs =>
              Char.ofNat
                ((b - 0xF0) * 0x40000 + (b1 - 0x80) * 0x1000 + (b2 - 0x80) * 0x40 + (b3 - 0x80))
                :: cs)
        else none
      | _ => none
    else none

/-- Strings are modelled as their character sequences. -/
abbrev Str := List Char

/-- `read_string` from `src/lib.rs`.  The Rust loop iterates
`ptr..ptr + len` in `u32`, so the end bound is the wrapped sum; the element
count is therefore `(ptr + len) % 2 ^ 32 - ptr` (zero if the sum wraps
below `ptr`). -/
def read_string (m : MemMap) (ptr len : Nat) : Option Str :=
  if len = 0 ∨ 1000 < len then none
  else
    match readBytes m ptr ((ptr + len) % 2 ^ 32 - ptr) with
    | some bs => utf8Decode bs
    | none => none

/-- ASCII uppercase letter test (`'A'..='Z'`). -/
def isUpperCh (c : Char) : Bool := 'A' ≤ c && c ≤ 'Z'

/-- ASCII lowercase letter test (`'a'..='z'`). -/
def isLowerCh (c : Char) : Bool := 'a' ≤ c && c ≤ 'z'

/-- ASCII digit test (`'0'..='9'`). -/
def isDigitCh (c : Char) : Bool := '0' ≤ c && c ≤ '9'

/-- ASCII letter test (`is_ascii_alphabetic`). -/
def isAlphaCh (c : Char) : Bool := isUpperCh c || isLowerCh c

/-- UTF-8 byte length of one character. -/
def utf8Size (c : Char) : Nat :=
  if c.toNat < 0x80 then 1
  else if c.toNat < 0x800 then 2
  else if c.toNat < 0x10000 then 3
  else 4

/-- Rust `str::len`: the UTF-8 byte length of the string. -/
def utf8Len (s : Str) : Nat := (s.map utf8Size).sum

/-- Accumulator of the single-pass character analysis in `is_env_var`. -/
structure CharScan where
  letters : Nat
  hasUnd : Bool
  allUpperOrUnd : Bool
deriving DecidableEq

/-- The character loop of `is_env_var`: counts letters, tracks underscores and
case; `none` models the early `return false` on an invalid character. -/
def scanChars : List Char → CharScan → Option CharScan
  | [], acc => some acc
  | c :: rest, acc =>
    if isUpperCh c then scanChars rest ⟨acc.letters + 1, acc.hasUnd, acc.allUpperOrUnd⟩
    else if isLowerCh c then scanChars rest ⟨acc.letters + 1, acc.hasUnd, false⟩
    else if c = '_' then scanChars rest ⟨acc.letters, true, acc.allUpperOrUnd⟩
    else if isDigitCh c then scanChars rest acc
    else none

/-- Does `text` start with `pat` (Rust `str::starts_with`; for the ASCII
patterns used here, byte-wise and character-wise agreement coincide). -/
def leadsWith : Str → Str → Bool
  | [], _ => true
  | _ :: _, [] => false
  | p :: ps, c :: cs => p = c && leadsWith ps cs

/-- Substring containment (Rust `str::contains`). -/
def occursIn (pat : Str) : Str → Bool
  | [] => pat.isEmpty
  | c :: rest => leadsWith pat (c :: rest) || occursIn pat rest

/-- ASCII uppercasing of one character; Rust `str::to_uppercase` coincides
with this on the strings it is applied to here, whose characters have all
passed an ASCII-only filter. -/
def asciiUpper (c : Char) : Char :=
  if isLowerCh c then Char.ofNat (c.toNat - 0x20) else c

/-- The noise denylist of `is_env_var` in `src/lib.rs`. -/
def noiseLib : List Str :=
  ["HTTP", "HTTPS", "JSON", "UTF8", "WASM", "COMPONENT", "LOCALHOST", "MAIN",
   "FALSE", "TRUE", "FILE"].map String.toList

/-- `is_env_var` from `src/lib.rs`: the library's candidate classifier.
The two byte probes `s.as_bytes()[0]` and `s.as_bytes()[len - 1]` are
modelled through the first and last character: at that point every character
has passed the ASCII-only loop, so bytes and characters coincide. -/
def is_env_var (s : Str) : Bool :=
  if utf8Len s < 4 ∨ 100 < utf8Len s then false
  else
    match scanChars s ⟨0, false, true⟩ with
    | none => false
    | some sc =>
      if sc.letters < 4 then false
      else if sc.letters * 2 < utf8Len s then false
      else if s.head? = some '_' ∨ s.getLast? = some '_' then false
      else if s ∈ noiseLib then false
      else if occursIn "::".toList s = true ∨
          (occursIn "Error".toList s = true ∧ sc.hasUnd = false) then false
      else if occursIn "RUST_".toList s = true ∨ occursIn "BACKTRACE".toList s = true then false
      else if sc.hasUnd = true ∧ sc.allUpperOrUnd = true then true
      else
        sc.hasUnd &&
          (occursIn "_KEY".toList (s.map asciiUpper) ||
            occursIn "_TOKEN".toList (s.map asciiUpper) ||
            occursIn "_SECRET".toList (s.map asciiUpper) ||
            occursIn "_PASSWORD".toList (s.map asciiUpper) ||
            occursIn "_URL".toList (s.map asciiUpper) ||
            occursIn "_DB".toList (s.map asciiUpper) ||
            occursIn "API_KEY".toList (s.map asciiUpper) ||
            occursIn "DATABASE_".toList (s.map asciiUpper) ||
            occursIn "HOST_".toList (s.map asciiUpper) ||
            occursIn "_PORT".toList (s.map asciiUpper) ||
            occursIn "_API_".toList (s.map asciiUpper) ||
            occursIn "BETTY_".toList (s.map asciiUpper) ||
            occursIn "JWT".toList (s.map asciiUpper))

/-- `StackFrame` from the source: operand stack (top first) plus the local
map; absent locals read as `Unknown`. -/
structure Frame where
  stack : List Value
  locals : Nat → Value

/-- `StackFrame::new`. -/
def initFrame : Frame := ⟨[], fun _ => Value.Unknown⟩

/-- `StackFrame::peek`: read the slot `d` below the top without removing it;
out-of-range reads yield `Unknown`. -/
def peekV (fr : Frame) (d : Nat) : Value := (fr.stack.get? d).getD Value.Unknown

/-- `StackFrame::push`. -/
def pushV (fr : Frame) (v : Value) : Frame := { fr with stack := v :: fr.stack }

/-- `StackFrame::pop`: `Unknown` on an empty stack. -/
def popV (fr : Frame) : Value × Frame :=
  match fr.stack with
  | [] => (Value.Unknown, fr)
  | v :: rest => (v, { fr with stack := rest })

/-- `StackFrame::set_local`. -/
def setLocal (fr : Frame) (i : Nat) (v : Value) : Frame :=
  { fr with locals := fun j => if j = i then v else fr.locals j }

/-- The detection performed at a call site by `analyze_function` in
`src/lib.rs`: if the slot below the top (`ptr`) and the top slot (`len`) are
both `Known`, the bounds `ptr > 0x1000`, `3 <= len <= 100` hold, the string
reads back from the memory image and the classifier accepts it, the accepted
name is produced. -/
def callDetect (mem : MemMap) (vp vl : Value) : Option Str :=
  match vp, vl with
  | Value.Known p, Value.Known l =>
    if 0x1000 < p ∧ 3 ≤ l ∧ l ≤ 100 then
      match read_string mem (toU32 p) (toU32 l) with
      | some s => if is_env_var s then some s else none
      | none => none
    else none
  | _, _ => none

/-- One step of the abstract interpreter of `analyze_function` in
`src/lib.rs` (every arm of its operator match except `Return`, which the
runner handles as loop exit).  The second component is the env-var name the
step inserts, produced only at call sites. -/
def libStep (g : List Int) (mem : MemMap) (fr : Frame) (op : Op) : Frame × Option Str :=
  match op with
  | Op.i32Const v => (pushV fr (Value.Known v), none)
  | Op.wideConst => (pushV fr Value.Unknown, none)
  | Op.globalGet i => (pushV fr (((g.get? i).map Value.Known).getD Value.Unknown), none)
  | Op.localGet i => (pushV fr (fr.locals i), none)
  | Op.localSet i =>
    let p := popV fr
    (setLocal p.2 i p.1, none)
  | Op.localTee i => (setLocal fr i (peekV fr 0), none)
  | Op.i32Add =>
    let pb := popV fr
    let pa := popV pb.2
    (pushV pa.2
      (match pa.1, pb.1 with
        | Value.Known x, Value.Known y => Value.Known (toI32 (x + y))
        | _, _ => Value.Unknown), none)
  | Op.i32Sub | Op.i32Mul | Op.i32Div | Op.i32Rem =>
    (pushV (popV (popV fr).2).2 Value.Unknown, none)
  | Op.i32Eqz => (pushV (popV fr).2 Value.Unknown, none)
  | Op.i32CmpBasic | Op.i32CmpExtra => (pushV (popV (popV fr).2).2 Value.Unknown, none)
  | Op.i32BitOp => (pushV (popV (popV fr).2).2 Value.Unknown, none)
  | Op.memLoad => (pushV (popV fr).2 Value.Unknown, none)
  | Op.memStore => ((popV (popV fr).2).2, none)
  | Op.call =>
    ({ stack := [Value.Unknown], locals := fr.locals },
      callDetect mem (peekV fr 1) (peekV fr 0))
  | Op.dropV => ((popV fr).2, none)
  | Op.selectV =>
    let pc := popV fr
    let pb := popV pc.2
    let pa := popV pb.2
    (pushV pa.2 (if pa.1 = pb.1 then pa.1 else Value.Unknown), none)
  | Op.ret => (fr, none)
  | Op.ctrl => (fr, none)
  | Op.other => (fr, none)

/-- HashSet insertion into the accumulated result set (no-op on a
duplicate). -/
def insertStr (env : List Str) (s : Str) : List Str :=
  if s ∈ env then env else env ++ [s]

/-- Insert a detected candidate, if any. -/
def insertCand (env : List Str) (c : Option Str) : List Str :=
  match c with
  | some s => insertStr env s
  | none => env

/-- The instruction loop of `analyze_function`: step through the operator
stream, breaking at `Return`.  Returns the final frame, the accumulated set,
and whether a `Return` ended the loop early. -/
def libRunOps (g : List Int) (mem : MemMap) :
    List Op → Frame → List Str → Frame × List Str × Bool
  | [], fr, env => (fr, env, false)
  | op :: rest, fr, env =>
    if op = Op.ret then (fr, env, true)
    else
      let s := libStep g mem fr op
      libRunOps g mem rest s.1 (insertCand env s.2)

/-- `analyze_function` from `src/lib.rs`: run the operator stream; if the
reader fails mid-stream (and no `Return` broke out first), the decode error
propagates as `Except.error`. -/
def analyze_function (g : List Int) (mem : MemMap) (f : FuncBody) (env : List Str) :
    Except Unit (List Str) :=
  if (libRunOps g mem f.ops initFrame env).2.2 then
    Except.ok (libRunOps g mem f.ops initFrame env).2.1
  else if f.malformed then Except.error ()
  else Except.ok (libRunOps g mem f.ops initFrame env).2.1

/-- The function loop of `detect_env_vars`: `analyze_function(body, ...)?`
propagates the first error. -/
def analyzeAll (g : List Int) (mem : MemMap) :
    List FuncBody → List Str → Except Unit (List Str)
  | [], env => Except.ok env
  | f :: rest, env =>
    match analyze_function g mem f env with
    | Except.error e => Except.error e
    | Except.ok env1 => analyzeAll g mem rest env1

/-- `detect_env_vars` from `src/lib.rs`: collect segments and globals, build
the memory image, then analyze every function body. -/
def detect_env_vars (m : Module) : Except Unit (List Str) :=
  analyzeAll (collect_globals m.globalInits)
    (build_memory_map (collect_data_segments m.dataEntries)) m.funcs []

/-- Byte-lexicographic comparison of strings, the order Rust `Vec::sort`
uses on `String` (UTF-8 byte order, which agrees with character order). -/
def strLeB : Str → Str → Bool
  | [], _ => true
  | _ :: _, [] => false
  | a :: as, b :: bs => if a < b then true else if b < a then false else strLeB as bs

/-- `strLeB` as a relation. -/
abbrev strLe (a b : Str) : Prop := strLeB a b = true

/-- `result.sort()` on the collected list. -/
def sortStrs (l : List Str) : List Str := List.insertionSort strLe l

/-- `scan_wasm_bytes` from `src/lib.rs`: detect, then emit the set as a
sorted vector. -/
def scan_wasm_bytes (m : Module) : Except Unit (List Str) :=
  (detect_env_vars m).map sortStrs

/-- The noise denylist of `is_env_var_candidate` in `src/main.rs` (matched
against the uppercased string). -/
def noiseMain : List Str :=
  ["HTTP", "HTTPS", "JSON", "UTF8", "WASM", "COMPONENT", "RUST_BACKTRACE",
   "RUST_LOG", "RUST_LIB_BACKTRACE", "LOCALHOST", "MAIN", "STD", "CORE",
   "ALLOC"].map String.toList

/-- The exact-keyword accept list of `is_env_var_candidate` in
`src/main.rs`. -/
def exactKeywords : List Str :=
  ["PASSWORD", "USERNAME", "USER", "HOST", "PORT", "DB", "DATABASE", "TOKEN",
   "SECRET", "KEY", "ENV"].map String.toList

/-- `is_env_var_candidate` from `src/main.rs`: the CLI binary's own
classifier.  As in `is_env_var`, the uppercasing and the edge-underscore
probes only ever see ASCII-filtered strings, where character-wise and
byte-wise treatment coincide. -/
def is_env_var_candidate (s : Str) : Bool :=
  if utf8Len s < 3 ∨ 100 < utf8Len s then false
  else if s.any isAlphaCh = false then false
  else if s.all (fun c => isAlphaCh c || isDigitCh c || c = '_') = false then false
  else if leadsWith "_ZN".toList s = true ∨ leadsWith "__".toList s = true ∨
      occursIn "17h".toList s = true then false
  else if s.getLast? = some '_' ∨ s.head? = some '_' then false
  else if s.map asciiUpper ∈ noiseMain then false
  else if occursIn "RUST_BACKTRACE".toList (s.map asciiUpper) = true ∨
      occursIn "RUST_LIB_BACKTRA".toList (s.map asciiUpper) = true then false
  else if s.contains '_' = true ∧
      s.all (fun c => isUpperCh c || c = '_' || isDigitCh c) = true ∧
      3 ≤ (s.filter isAlphaCh).length then true
  else
    (occursIn "_KEY".toList (s.map asciiUpper) ||
      occursIn "_TOKEN".toList (s.map asciiUpper) ||
      occursIn "_SECRET".toList (s.map asciiUpper) ||
      occursIn "_PASSWORD".toList (s.map asciiUpper) ||
      occursIn "_URL".toList (s.map asciiUpper) ||
      occursIn "_DB".toList (s.map asciiUpper) ||
      occursIn "API_".toList (s.map asciiUpper)) ||
      exactKeywords.contains (s.map asciiUpper)

/-- `extract_string_from_memory` from `src/main.rs` (same logic as
`read_string`). -/
def extract_string_from_memory (m : MemMap) (ptr len : Nat) : Option Str :=
  if len = 0 ∨ 1000 < len then none
  else
    match readBytes m ptr ((ptr + len) % 2 ^ 32 - ptr) with
    | some bs => utf8Decode bs
    | none => none

/-- The call-site detection of `scan_function_deterministic` in
`src/main.rs`: bounds `len > 0 && len < 200 && ptr > 0`. -/
def mainCallDetect (mem : MemMap) (vp vl : Value) : Option Str :=
  match vp, vl with
  | Value.Known p, Value.Known l =>
    if 0 < l ∧ l < 200 ∧ 0 < p then
      match extract_string_from_memory mem (toU32 p) (toU32 l) with
      | some s => if is_env_var_candidate s then some s else none
      | none => none
    else none
  | _, _ => none

/-- One step of the interpreter of `scan_function_deterministic` in
`src/main.rs`.  Unlike the library interpreter it treats the extra
comparison, remainder, bitwise, load and store operators as no-ops (they fall
to its catch-all arm), and a call pushes `Unknown` without clearing the
stack. -/
def mainStep (g : List Int) (mem : MemMap) (fr : Frame) (op : Op) : Frame × Option Str :=
  match op with
  | Op.i32Const v => (pushV fr (Value.Known v), none)
  | Op.wideConst => (pushV fr Value.Unknown, none)
  | Op.globalGet i => (pushV fr (((g.get? i).map Value.Known).getD Value.Unknown), none)
  | Op.localGet i => (pushV fr (fr.locals i), none)
  | Op.localSet i =>
    let p := popV fr
    (setLocal p.2 i p.1, none)
  | Op.localTee i => (setLocal fr i (peekV fr 0), none)
  | Op.i32Add =>
    let pb := popV fr
    let pa := popV pb.2
    (pushV pa.2
      (match pa.1, pb.1 with
        | Value.Known x, Value.Known y => Value.Known (toI32 (x + y))
        | _, _ => Value.Unknown), none)
  | Op.i32Sub | Op.i32Mul | Op.i32Div =>
    (pushV (popV (popV fr).2).2 Value.Unknown, none)
  | Op.i32Eqz => (pushV (popV fr).2 Value.Unknown, none)
  | Op.i32CmpBasic => (pushV (popV (popV fr).2).2 Value.Unknown, none)
  | Op.call =>
    (pushV fr Value.Unknown, mainCallDetect mem (peekV fr 1) (peekV fr 0))
  | Op.dropV => ((popV fr).2, none)
  | Op.selectV =>
    let pc := popV fr
    let pb := popV pc.2
    let pa := popV pb.2
    (pushV pa.2 (if pa.1 = pb.1 then pa.1 else Value.Unknown), none)
  | _ => (fr, none)

/-- The instruction loop of `scan_function_deterministic` (same loop shape as
the library's, breaking at `Return`). -/
def mainRunOps (g : List Int) (mem : MemMap) :
    List Op → Frame → List Str → Frame × List Str × Bool
  | [], fr, env => (fr, env, false)
  | op :: rest, fr, env =>
    if op = Op.ret then (fr, env, true)
    else
      let s := mainStep g mem fr op
      mainRunOps g mem rest s.1 (insertCand env s.2)

/-- `scan_function_deterministic` from `src/main.rs`. -/
def scan_function_deterministic (g : List Int) (mem : MemMap) (f : FuncBody)
    (env : List Str) : Except Unit (List Str) :=
  if (mainRunOps g mem f.ops initFrame env).2.2 then
    Except.ok (mainRunOps g mem f.ops initFrame env).2.1
  else if f.malformed then Except.error ()
  else Except.ok (mainRunOps g mem f.ops initFrame env).2.1

/-- The function loop of `scan_for_env_vars` in `src/main.rs`
(`scan_function_deterministic(body, ...)?`). -/
def mainAnalyzeAll (g : List Int) (mem : MemMap) :
    List FuncBody → List Str → Except Unit (List Str)
  | [], env => Except.ok env
  | f :: rest, env =>
    match scan_function_deterministic g mem f env with
    | Except.error e => Except.error e
    | Except.ok env1 => mainAnalyzeAll g mem rest env1

/-- `scan_for_env_vars` from `src/main.rs`: its segment/global collection and
memory-map construction are textually identical to the library's. -/
def scan_for_env_vars (m : Module) : Except Unit (List Str) :=
  mainAnalyzeAll (collect_globals m.globalInits)
    (build_memory_map (collect_data_segments m.dataEntries)) m.funcs []

/-- The sorted list the CLI's `main` prints (`sorted.sort()` on the collected
set). -/
def main_scan_sorted (m : Module) : Except Unit (List Str) :=
  (scan_for_env_vars m).map sortStrs

/-- The bytes of `"DATABASE_URL"`. -/
def dbBytes : List Nat := [0x44, 0x41, 0x54, 0x41, 0x42, 0x41, 0x53, 0x45, 0x5F, 0x55, 0x52, 0x4C]

/-- The characters of `"DATABASE_URL"`. -/
def dbStr : Str := "DATABASE_URL".toList

/-- The module of claim C1: one active data segment holding the bytes of
`"DATABASE_URL"` at constant offset `off`, and one function whose body pushes
that offset and the length 12 as `i32` constants immediately before a call. -/
def c1Module (off : Nat) : Module :=
  { dataEntries := [⟨DataKind.active [Op.i32Const (off : Int), Op.ctrl], dbBytes⟩],
    globalInits := [],
    funcs := [⟨[Op.i32Const (off : Int), Op.i32Const 12, Op.call, Op.ctrl], false⟩] }

/-- The module of claim C2: a function that detects `"DATABASE_URL"`,
followed by a function whose operator stream is malformed. -/
def c2Module : Module :=
  { dataEntries := [⟨DataKind.active [Op.i32Const 0x2000, Op.ctrl], dbBytes⟩],
    globalInits := [],
    funcs := [⟨[Op.i32Const 0x2000, Op.i32Const 12, Op.call, Op.ctrl], false⟩,
              ⟨[], true⟩] }

/-- The module of claim C10: one active data segment holding the bytes of
`"PASSWORD"` at offset `0x2000`, and one function passing that pointer and
length 8 to a call. -/
def c10Module : Module :=
  { dataEntries :=
      [⟨DataKind.active [Op.i32Const 0x2000, Op.ctrl],
        [0x50, 0x41, 0x53, 0x53, 0x57, 0x4F, 0x52, 0x44]⟩],
    globalInits := [],
    funcs := [⟨[Op.i32Const 0x2000, Op.i32Const 8, Op.call, Op.ctrl], false⟩] }

/-- The minimal well-formed empty module: only the header, no sections. -/
def emptyModule : Module := ⟨[], [], []⟩

instance : DecidableEq (Except Unit (List Str)) := fun a b =>
  match a, b with
  | Except.error u, Except.error v => isTrue (by cases u; cases v; rfl)
  | Except.ok x, Except.ok y =>
    if h : x = y then isTrue (congrArg Except.ok h)
    else isFalse (fun hh => h (Except.ok.inj hh))
  | Except.error _, Except.ok _ => isFalse (fun hh => Except.noConfusion hh)
  | Except.ok _, Except.error _ => isFalse (fun hh => Except.noConfusion hh)

instance : IsTotal Str strLe where
  total := by
    intro a
    induction a with
    | nil => intro b; exact Or.inl rfl
    | cons x xs ih =>
      intro b
      cases b with
      | nil => exact Or.inr rfl
      | cons y ys =>
        rcases lt_trichotomy x y with h | h | h
        · exact Or.inl (by simp [strLe, strLeB, h])
        · subst h
          rcases ih ys with h2 | h2
          · exact Or.inl (by simp [strLe, strLeB, lt_irrefl, h2])
          · exact Or.inr (by simp [strLe, strLeB, lt_irrefl, h2])
        · exact Or.inr (by simp [strLe, strLeB, h])

instance : IsTrans Str strLe where
  trans := by
    intro a
    induction a with
    | nil => intro b c _ _; exact rfl
    | cons x xs ih =>
      intro b c hab hbc
      cases b with
      | nil => simp [strLe, strLeB] at hab
      | cons y ys =>
        cases c with
        | nil => simp [strLe, strLeB] at hbc
        | cons z zs =>
          simp only [strLe, strLeB] at hab hbc ⊢
          rcases lt_trichotomy x y with h1 | h1 | h1
          · rcases lt_trichotomy y z with h2 | h2 | h2
            · simp [lt_trans h1 h2]
            · subst h2; simp [h1]
            · rw [if_neg (asymm h2), if_pos h2] at hbc; exact absurd hbc (by simp)
          · subst h1
            rcases lt_trichotomy x z with h2 | h2 | h2
            · simp [h2]
            · subst h2
              simp only [lt_irrefl, if_false] at hab hbc ⊢
              exact ih ys zs hab hbc
            · rw [if_neg (asymm h2), if_pos h2] at hbc; exact absurd hbc (by simp)
          · rw [if_neg (asymm h1), if_pos h1] at hab; exact absurd hab (by simp)

/-! Helper lemmas shared by the claim theorems. -/

/-- Stepping the runner over a non-`Return` operator. -/
theorem libRunOps_cons (g : List Int) (mem : MemMap) (op : Op) (rest : List Op)
    (fr : Frame) (env : List Str) (h : op ≠ Op.ret) :
    libRunOps g mem (op :: rest) fr env
      = libRunOps g mem rest (libStep g mem fr op).1
          (insertCand env (libStep g mem fr op).2) := by
  simp [libRunOps, h]

/-- A runner pass over `Return`-free code never sets the early-exit flag. -/
theorem libRunOps_no_ret_flag (g : List Int) (mem : MemMap) :
    ∀ (ops : List Op) (fr : Frame) (env : List Str), Op.ret ∉ ops →
      (libRunOps g mem ops fr env).2.2 = false := by
  intro ops
  induction ops with
  | nil => intro fr env _; rfl
  | cons op rest ih =>
    intro fr env h
    rw [libRunOps_cons g mem op rest fr env (fun he => h (he ▸ List.mem_cons_self op rest))]
    exact ih _ _ (fun hm => h (List.mem_cons_of_mem op hm))

/-- Splitting a runner pass at an append boundary, provided the first part
does not `Return`. -/
theorem libRunOps_append (g : List Int) (mem : MemMap) :
    ∀ (xs ys : List Op) (fr : Frame) (env : List Str), Op.ret ∉ xs →
      libRunOps g mem (xs ++ ys) fr env
        = libRunOps g mem ys (libRunOps g mem xs fr env).1
            (libRunOps g mem xs fr env).2.1 := by
  intro xs
  induction xs with
  | nil => intro ys fr env _; rfl
  | cons op rest ih =>
    intro ys fr env h
    have hop : op ≠ Op.ret := fun he => h (he ▸ List.mem_cons_self op rest)
    rw [List.cons_append, libRunOps_cons g mem op (rest ++ ys) fr env hop,
      libRunOps_cons g mem op rest fr env hop]
    exact ih ys _ _ (fun hm => h (List.mem_cons_of_mem op hm))

/-- Reinterpreting a small natural number through `i32`/`u32` is the
identity. -/
theorem toU32_natCast (n : Nat) (h : n < 2 ^ 32) : toU32 (n : Int) = n := by
  unfold toU32
  omega

/-- Addresses below a segment write are untouched by it. -/
theorem segWrite_lookup_lt (data : List Nat) :
    ∀ (m : MemMap) (off a : Nat), off + data.length ≤ 2 ^ 32 → a < off →
      segWrite m off data a = m a := by
  induction data with
  | nil => intro m off a _ _; rfl
  | cons b rest ih =>
    intro m off a hbound ha
    have hoff : off < 2 ^ 32 := by simp at hbound; omega
    show segWrite (memInsert m (off % 2 ^ 32) b) (off + 1) rest a = m a
    rw [ih (memInsert m (off % 2 ^ 32) b) (off + 1) a (by simp at hbound ⊢; omega)
      (by omega)]
    unfold memInsert
    rw [Nat.mod_eq_of_lt hoff]
    simp [Nat.ne_of_lt ha]

/-- Reading back a whole freshly written segment. -/
theorem readBytes_segWrite (data : List Nat) :
    ∀ (m : MemMap) (off : Nat), off + data.length ≤ 2 ^ 32 →
      readBytes (segWrite m off data) off data.length = some data := by
  induction data with
  | nil => intro m off _; rfl
  | cons b rest ih =>
    intro m off hbound
    have hoff : off < 2 ^ 32 := by simp at hbound; omega
    have hlow : segWrite (memInsert m (off % 2 ^ 32) b) (off + 1) rest off
        = memInsert m (off % 2 ^ 32) b off :=
      segWrite_lookup_lt rest (memInsert m (off % 2 ^ 32) b) (off + 1) off
        (by simp at hbound ⊢; omega) (by omega)
    have hhit : memInsert m (off % 2 ^ 32) b off = some b := by
      unfold memInsert
      rw [Nat.mod_eq_of_lt hoff]
      simp
    show readBytes (segWrite (memInsert m (off % 2 ^ 32) b) (off + 1) rest) off
        (rest.length + 1) = some (b :: rest)
    unfold readBytes
    rw [hlow, hhit, ih (memInsert m (off % 2 ^ 32) b) (off + 1) (by simp at hbound ⊢; omega)]

/-- Reading the planted `"DATABASE_URL"` bytes back out of the memory
image. -/
theorem c1_mem_read (off : Nat) (h2 : off + 12 ≤ 2 ^ 31) :
    read_string (segWrite emptyMem off dbBytes) off 12 = some dbStr := by
  unfold read_string
  rw [if_neg (by decide)]
  have hcnt : (off + 12) % 2 ^ 32 - off = 12 := by omega
  rw [hcnt]
  have hrb := readBytes_segWrite dbBytes emptyMem off (by simp [dbBytes]; omega)
  have hlen : dbBytes.length = 12 := rfl
  rw [hlen] at hrb
  rw [hrb]
  decide

/-- The call-site detection fires on the C1 module's (pointer, length)
pair whenever the pointer clears the floor guard. -/
theorem c1_callDetect (off : Nat) (h1 : 0x1000 < off) (h2 : off + 12 ≤ 2 ^ 31) :
    callDetect (segWrite emptyMem off dbBytes) (Value.Known (off : Int))
      (Value.Known 12) = some dbStr := by
  unfold callDetect
  dsimp only
  rw [if_pos ⟨by exact Int.ofNat_lt.mpr h1, by decide, by decide⟩]
  rw [show toU32 (off : Int) = off from toU32_natCast off (by omega)]
  rw [show toU32 12 = 12 from by decide]
  rw [c1_mem_read off h2]
  simp [show is_env_var dbStr = true from by decide]

/-- Running the C1 module's single function body detects the planted
name. -/
theorem c1_run (off : Nat) (h1 : 0x1000 < off) (h2 : off + 12 ≤ 2 ^ 31) :
    libRunOps [] (segWrite emptyMem off dbBytes)
      [Op.i32Const (off : Int), Op.i32Const 12, Op.call, Op.ctrl] initFrame []
      = (⟨[Value.Unknown], initFrame.locals⟩, [dbStr], false) := by
  rw [libRunOps_cons _ _ _ _ _ _ (fun h => Op.noConfusion h),
    libRunOps_cons _ _ _ _ _ _ (fun h => Op.noConfusion h),
    libRunOps_cons _ _ _ _ _ _ (fun h => Op.noConfusion h),
    libRunOps_cons _ _ _ _ _ _ (fun h => Op.noConfusion h)]
  dsimp only [libStep, pushV, peekV, initFrame, insertCand, List.get?, Option.getD]
  rw [c1_callDetect off h1 h2]
  simp [libRunOps, insertCand, insertStr]

/-- C1 (amended): for a module with one active data segment spelling
`"DATABASE_URL"` at constant offset `off` and one function pushing that
offset and the length 12 as `i32` constants immediately before a call,
`scan` returns exactly `["DATABASE_URL"]` — for every such offset strictly
above the pointer floor guard `0x1000` (and small enough that the i32
constant is nonnegative and the 12-byte read stays in the 32-bit address
space). -/
theorem c1_scan_detects (off : Nat) (h1 : 0x1000 < off) (h2 : off + 12 ≤ 2 ^ 31) :
    scan_wasm_bytes (c1Module off) = Except.ok [dbStr] := by
  have hmem : build_memory_map (collect_data_segments (c1Module off).dataEntries)
      = segWrite emptyMem off dbBytes := by
    simp [c1Module, collect_data_segments, extract_i32_const, constPayload,
      build_memory_map, toU32_natCast off (by omega)]
  unfold scan_wasm_bytes detect_env_vars
  rw [hmem]
  dsimp only [c1Module]
  unfold analyzeAll analyze_function
  rw [show collect_globals [] = [] from rfl]
  rw [c1_run off h1 h2]
  rfl

/-- C1 (counterexample to the unrestricted claim): at offset `0`, a module of
exactly the claimed shape scans to the empty list, not `["DATABASE_URL"]`
(the pointer floor guard `ptr > 0x1000` rejects the candidate). -/
theorem c1_low_offset_missed : scan_wasm_bytes (c1Module 0) ≠ Except.ok [dbStr] := by
  decide

/-- C1 witness: the amended theorem applied at the concrete offset
`0x2000`. -/
theorem c1_scan_detects_witness : scan_wasm_bytes (c1Module 0x2000) = Except.ok [dbStr] :=
  c1_scan_detects 0x2000 (by decide) (by decide)

/-- C2 (code evaluated at the failing input): in a module whose first
function body detects `"DATABASE_URL"` and whose second function body has a
malformed operator stream, the scan does not skip the bad body — the decode
error propagates through `analyze_function(body, ...)?` and the whole scan
returns an error, discarding the candidates the first function had
accumulated (shown by the second conjunct: the same pipeline over the good
function alone succeeds). -/
theorem c2_error_propagates :
    scan_wasm_bytes c2Module = Except.error () ∧
    analyzeAll (collect_globals c2Module.globalInits)
        (build_memory_map (collect_data_segments c2Module.dataEntries))
        [⟨[Op.i32Const 0x2000, Op.i32Const 12, Op.call, Op.ctrl], false⟩] []
      = Except.ok [dbStr] := by
  exact ⟨by decide, by decide⟩

/-- C5 (code evaluated at the failing input): with a globals section whose
first global has a non-constant initializer and whose second is
`i32.const 42`, the recorded constants compact into index 0 — a global read
of declared index 1 pushes `Unknown` and a read of declared index 0 pushes
`Known 42`, the reverse of what declared-index addressing requires. -/
theorem c5_global_index_shift :
    collect_globals [[Op.wideConst, Op.ctrl], [Op.i32Const 42, Op.ctrl]] = [42] ∧
    (libStep (collect_globals [[Op.wideConst, Op.ctrl], [Op.i32Const 42, Op.ctrl]])
        emptyMem initFrame (Op.globalGet 1)).1.stack = [Value.Unknown] ∧
    (libStep (collect_globals [[Op.wideConst, Op.ctrl], [Op.i32Const 42, Op.ctrl]])
        emptyMem initFrame (Op.globalGet 0)).1.stack = [Value.Known 42] := by
  exact ⟨by decide, by decide, by decide⟩

/-- C6 (counterexample): an offset expression that is not a single
constant-integer instruction — `global.get 0; i32.const 5; i32.add; end` —
is nevertheless recorded (at offset 5, the first embedded constant), both as
a data-segment offset and as a global initializer, refuting "skipped or
discarded silently". -/
theorem c6_embedded_const_recorded :
    extract_i32_const [Op.globalGet 0, Op.i32Const 5, Op.i32Add, Op.ctrl] = some 5 ∧
    collect_data_segments
        [⟨DataKind.active [Op.globalGet 0, Op.i32Const 5, Op.i32Add, Op.ctrl],
          [65, 66, 67]⟩]
      = [⟨5, [65, 66, 67]⟩] ∧
    collect_globals [[Op.globalGet 0, Op.i32Const 5, Op.i32Add, Op.ctrl]] = [5] := by
  exact ⟨by decide, by decide, by decide⟩

/-- C10 (counterexample): the CLI's analysis and the library's scan disagree
on the module passing `"PASSWORD"` (pointer `0x2000`, length 8) to a call:
the library classifier rejects the bare keyword, the CLI classifier accepts
it. -/
theorem c10_pipelines_disagree : scan_wasm_bytes c10Module ≠ main_scan_sorted c10Module := by
  decide

/-- C10 (amended): the CLI's analysis need not compute the same set as the
library's scan: on the `"PASSWORD"` module the library returns the empty
list while the CLI analysis returns `["PASSWORD"]`. -/
theorem c10_disagreement_instance :
    scan_wasm_bytes c10Module = Except.ok [] ∧
    main_scan_sorted c10Module = Except.ok ["PASSWORD".toList] := by
  exact ⟨by decide, by decide⟩

/-- C4: a 32-bit add of two `Known` operands pops both and pushes `Known` of
their wrapping sum (exact modulo `2 ^ 32`, kept in the signed 32-bit
range); an add with an `Unknown` operand, and every other binary 32-bit
arithmetic, comparison or bitwise instruction, pops both operands and pushes
`Unknown`. -/
theorem c4_binary_arith (g : List Int) (mem : MemMap) (loc : Nat → Value)
    (x y : Int) (a b : Value) (rest : List Value) :
    ((libStep g mem ⟨Value.Known y :: Value.Known x :: rest, loc⟩ Op.i32Add).1.stack
        = Value.Known (toI32 (x + y)) :: rest ∧
      toI32 (x + y) % 2 ^ 32 = (x + y) % 2 ^ 32 ∧
      -2 ^ 31 ≤ toI32 (x + y) ∧ toI32 (x + y) < 2 ^ 31) ∧
    (a = Value.Unknown ∨ b = Value.Unknown →
      (libStep g mem ⟨b :: a :: rest, loc⟩ Op.i32Add).1.stack = Value.Unknown :: rest) ∧
    (∀ op, op ∈ [Op.i32Sub, Op.i32Mul, Op.i32Div, Op.i32Rem, Op.i32CmpBasic,
        Op.i32CmpExtra, Op.i32BitOp] →
      (libStep g mem ⟨b :: a :: rest, loc⟩ op).1.stack = Value.Unknown :: rest) := by
  refine ⟨⟨rfl, ?_, ?_, ?_⟩, ?_, ?_⟩
  · unfold toI32; omega
  · unfold toI32; omega
  · unfold toI32; omega
  · rintro (rfl | rfl)
    · cases b <;> rfl
    · cases a <;> rfl
  · intro op hop
    simp only [List.mem_cons, List.not_mem_nil, or_false] at hop
    rcases hop with rfl | rfl | rfl | rfl | rfl | rfl | rfl <;> rfl

/-- C4 witness: the wrapping-sum case at `2 ^ 31 - 1 + 1` and the
`Unknown`-operand case, at concrete inputs. -/
theorem c4_binary_arith_witness :
    (libStep [] emptyMem ⟨[Value.Known 1, Value.Known (2 ^ 31 - 1)], fun _ => Value.Unknown⟩
        Op.i32Add).1.stack = [Value.Known (toI32 (2 ^ 31 - 1 + 1))] ∧
    (libStep [] emptyMem ⟨[Value.Unknown, Value.Known 7], fun _ => Value.Unknown⟩
        Op.i32Add).1.stack = [Value.Unknown] ∧
    (libStep [] emptyMem ⟨[Value.Unknown, Value.Known 7], fun _ => Value.Unknown⟩
        Op.i32Sub).1.stack = [Value.Unknown] := by
  refine ⟨(c4_binary_arith [] emptyMem (fun _ => Value.Unknown) (2 ^ 31 - 1) 1
      Value.Unknown Value.Unknown []).1.1, ?_, ?_⟩
  · exact (c4_binary_arith [] emptyMem (fun _ => Value.Unknown) 0 0
      (Value.Known 7) Value.Unknown []).2.1 (Or.inr rfl)
  · exact (c4_binary_arith [] emptyMem (fun _ => Value.Unknown) 0 0
      (Value.Known 7) Value.Unknown []).2.2 Op.i32Sub (by simp)

/-- C3: at a call (or indirect call) the interpreter inspects the slot one
below the top of the pre-call stack as the candidate pointer and the top slot
as the candidate length — reading them in place, without popping — then
clears the whole operand stack and pushes a single `Unknown`, so immediately
after every call instruction the abstract stack is exactly `[Unknown]`. -/
theorem c3_call_inspect_clear (g : List Int) (mem : MemMap) (pre : List Op)
    (fr0 : Frame) (env0 : List Str) (h : Op.ret ∉ pre) :
    libRunOps g mem (pre ++ [Op.call]) fr0 env0
      = (⟨[Value.Unknown], (libRunOps g mem pre fr0 env0).1.locals⟩,
         insertCand (libRunOps g mem pre fr0 env0).2.1
           (callDetect mem
             (((libRunOps g mem pre fr0 env0).1.stack.get? 1).getD Value.Unknown)
             (((libRunOps g mem pre fr0 env0).1.stack.get? 0).getD Value.Unknown)),
         false) := by
  rw [libRunOps_append g mem pre [Op.call] fr0 env0 h]
  rw [libRunOps_cons g mem Op.call [] _ _ (fun hh => Op.noConfusion hh)]
  rfl

/-- C3 witness: the theorem applied to a concrete prefix pushing a pointer
and a length before the call. -/
theorem c3_call_inspect_clear_witness :
    libRunOps [] emptyMem ([Op.i32Const 5, Op.i32Const 3] ++ [Op.call]) initFrame []
      = (⟨[Value.Unknown],
            (libRunOps [] emptyMem [Op.i32Const 5, Op.i32Const 3] initFrame []).1.locals⟩,
         insertCand (libRunOps [] emptyMem [Op.i32Const 5, Op.i32Const 3] initFrame []).2.1
           (callDetect emptyMem
             (((libRunOps [] emptyMem [Op.i32Const 5, Op.i32Const 3] initFrame
               []).1.stack.get? 1).getD Value.Unknown)
             (((libRunOps [] emptyMem [Op.i32Const 5, Op.i32Const 3] initFrame
               []).1.stack.get? 0).getD Value.Unknown)),
         false) :=
  c3_call_inspect_clear [] emptyMem [Op.i32Const 5, Op.i32Const 3] initFrame []
    (by decide)

/-- Any string shorter than 4 bytes is rejected by the library
classifier. -/
theorem is_env_var_short (s : Str) (h : utf8Len s < 4) : is_env_var s = false := by
  unfold is_env_var
  rw [if_pos (Or.inl h)]

/-- Any string whose first or last character is an underscore is rejected by
the library classifier. -/
theorem is_env_var_edge_underscore (s : Str)
    (h : s.head? = some '_' ∨ s.getLast? = some '_') : is_env_var s = false := by
  unfold is_env_var
  by_cases h0 : utf8Len s < 4 ∨ 100 < utf8Len s
  · rw [if_pos h0]
  · rw [if_neg h0]
    cases hsc : scanChars s ⟨0, false, true⟩ with
    | none => rfl
    | some sc =>
      dsimp only
      split_ifs <;> simp_all

/-- C7: the classifier accepts `"DATABASE_URL"` and `"API_KEY"`, rejects
`"HTTP"` and `"LOCALHOST"`, rejects every string that starts or ends with an
underscore, and rejects every string shorter than the 4-byte minimum
length. -/
theorem c7_classifier_table :
    is_env_var "DATABASE_URL".toList = true ∧
    is_env_var "API_KEY".toList = true ∧
    is_env_var "HTTP".toList = false ∧
    is_env_var "LOCALHOST".toList = false ∧
    (∀ s : Str, s.head? = some '_' ∨ s.getLast? = some '_' → is_env_var s = false) ∧
    (∀ s : Str, utf8Len s < 4 → is_env_var s = false) :=
  ⟨by decide, by decide, by decide, by decide,
    fun s h => is_env_var_edge_underscore s h,
    fun s h => is_env_var_short s h⟩

/-- C7 witness: the rejection rules applied to the spec's examples
`"_PRIVATE"`, `"TRAILING_"` and `"abc"`. -/
theorem c7_classifier_table_witness :
    is_env_var "_PRIVATE".toList = false ∧
    is_env_var "TRAILING_".toList = false ∧
    is_env_var "abc".toList = false :=
  ⟨c7_classifier_table.2.2.2.2.1 _ (Or.inl (by decide)),
   c7_classifier_table.2.2.2.2.1 _ (Or.inr (by decide)),
   c7_classifier_table.2.2.2.2.2 _ (by decide)⟩

/-- The byte loop of `read_string` succeeds exactly when every address of the
range is present in the memory image. -/
theorem readBytes_isSome_iff (m : MemMap) :
    ∀ (n p : Nat), (readBytes m p n).isSome = true ↔
      ∀ a, p ≤ a → a < p + n → (m a).isSome = true := by
  intro n
  induction n with
  | zero =>
    intro p
    constructor
    · intro _ a ha1 ha2; omega
    · intro _; rfl
  | succ k ih =>
    intro p
    constructor
    · intro hh a ha1 ha2
      unfold readBytes at hh
      cases hmp : m p with
      | none => rw [hmp] at hh; simp at hh
      | some b =>
        cases hrb : readBytes m (p + 1) k with
        | none => rw [hmp, hrb] at hh; simp at hh
        | some bs =>
          rcases Nat.eq_or_lt_of_le ha1 with rfl | hlt
          · rw [hmp]; rfl
          · exact (ih (p + 1)).mp (by rw [hrb]; rfl) a hlt (by omega)
    · intro hall
      unfold readBytes
      have hrest : (readBytes m (p + 1) k).isSome = true :=
        (ih (p + 1)).mpr (fun a ha1 ha2 => hall a (by omega) (by omega))
      have hmp : (m p).isSome = true := hall p (le_refl p) (by omega)
      cases hmp2 : m p with
      | none => rw [hmp2] at hmp; simp at hmp
      | some b =>
        cases hrb : readBytes m (p + 1) k with
        | none => rw [hrb] at hrest; simp at hrest
        | some bs => rfl

/-- C8: string extraction from a `(pointer, length)` pair yields a string
exactly when the length is nonzero and at most the fixed bound 1000, every
address in `[ptr, ptr + len)` is present in the memory image, and the bytes
of that range decode as valid UTF-8 text; in every other case it is a silent
`none` (the hypothesis keeps the `u32` range of the Rust loop from
wrapping). -/
theorem c8_read_string_iff (m : MemMap) (ptr len : Nat) (hno : ptr + len < 2 ^ 32) :
    (read_string m ptr len).isSome = true ↔
      (1 ≤ len ∧ len ≤ 1000 ∧
        (∀ a, ptr ≤ a → a < ptr + len → (m a).isSome = true) ∧
        ((readBytes m ptr len).bind utf8Decode).isSome = true) := by
  unfold read_string
  by_cases h0 : len = 0 ∨ 1000 < len
  · rw [if_pos h0]
    simp only [Option.isSome_none, Bool.false_eq_true, false_iff]
    rintro ⟨hl1, hl2, _, _⟩
    rcases h0 with h0 | h0 <;> omega
  · rw [if_neg h0]
    push_neg at h0
    have hcnt : (ptr + len) % 2 ^ 32 - ptr = len := by omega
    rw [hcnt]
    cases hrb : readBytes m ptr len with
    | none =>
      constructor
      · intro hh; simp at hh
      · rintro ⟨_, _, hall, _⟩
        have hs := (readBytes_isSome_iff m len ptr).mpr hall
        rw [hrb] at hs
        simp at hs
    | some bs =>
      constructor
      · intro hh
        refine ⟨by omega, by omega, ?_, ?_⟩
        · exact (readBytes_isSome_iff m len ptr).mp (by rw [hrb]; rfl)
        · simpa using hh
      · rintro ⟨_, _, _, hb⟩
        simpa using hb

/-- C8 witness: the theorem applied to a concrete four-byte image. -/
theorem c8_read_string_iff_witness :
    (read_string (build_memory_map [⟨0x2000, [65, 66, 67, 68]⟩]) 0x2000 4).isSome = true ↔
      (1 ≤ 4 ∧ 4 ≤ 1000 ∧
        (∀ a, 0x2000 ≤ a → a < 0x2000 + 4 →
          (build_memory_map [⟨0x2000, [65, 66, 67, 68]⟩] a).isSome = true) ∧
        ((readBytes (build_memory_map [⟨0x2000, [65, 66, 67, 68]⟩]) 0x2000 4).bind
            utf8Decode).isSome = true) :=
  c8_read_string_iff (build_memory_map [⟨0x2000, [65, 66, 67, 68]⟩]) 0x2000 4 (by decide)

/-- `constPayload` recognises exactly the `i32.const` operators. -/
theorem constPayload_eq_some (op : Op) (v : Int) :
    constPayload op = some v ↔ op = Op.i32Const v := by
  cases op <;> simp [constPayload]

/-- C6 (amended): a constant expression is recorded if and only if it
contains at least one `i32.const` instruction anywhere — the first such
constant is the one recorded — and expressions containing none are skipped
silently, never an error; recording is not limited to expressions that are
exactly a single constant instruction. -/
theorem c6_first_const (e : List Op) :
    (extract_i32_const e = none ↔ ∀ v : Int, Op.i32Const v ∉ e) ∧
    (∀ v : Int, extract_i32_const e = some v ↔
      ∃ l1 l2, e = l1 ++ Op.i32Const v :: l2 ∧ ∀ w : Int, Op.i32Const w ∉ l1) := by
  induction e with
  | nil =>
    constructor
    · simp [extract_i32_const]
    · intro v
      simp [extract_i32_const]
  | cons hd tl ih =>
    cases hcp : constPayload hd with
    | some u =>
      have hhd : hd = Op.i32Const u := (constPayload_eq_some hd u).mp hcp
      subst hhd
      have hext : extract_i32_const (Op.i32Const u :: tl) = some u := by
        unfold extract_i32_const
        rfl
      constructor
      · rw [hext]
        constructor
        · intro hh; exact absurd hh (by simp)
        · intro hh; exact absurd (List.mem_cons_self _ tl) (hh u)
      · intro v
        rw [hext]
        constructor
        · intro hh
          have huv : u = v := by simpa using hh
          subst huv
          exact ⟨[], tl, rfl, by simp⟩
        · rintro ⟨l1, l2, heq, hnone⟩
          cases l1 with
          | nil =>
            simp only [List.nil_append, List.cons.injEq] at heq
            rw [Op.i32Const.inj heq.1]
          | cons w l1 =>
            have hw : Op.i32Const u = w := (List.cons.inj heq).1
            exact absurd (hw ▸ List.mem_cons_self w l1) (fun hm => hnone u hm)
    | none =>
      have hstep : extract_i32_const (hd :: tl) = extract_i32_const tl := by
        conv_lhs => rw [extract_i32_const]
        rw [hcp]
      have hhd : ∀ v : Int, hd ≠ Op.i32Const v :=
        fun v hv => by rw [(constPayload_eq_some hd v).mpr hv] at hcp; exact Option.noConfusion hcp
      constructor
      · rw [hstep, ih.1]
        constructor
        · intro hh v hv
          rcases List.mem_cons.mp hv with h1 | h1
          · exact hhd v h1.symm
          · exact hh v h1
        · intro hh v hv
          exact hh v (List.mem_cons_of_mem hd hv)
      · intro v
        rw [hstep, ih.2 v]
        constructor
        · rintro ⟨l1, l2, rfl, hl1⟩
          refine ⟨hd :: l1, l2, rfl, fun w hw => ?_⟩
          rcases List.mem_cons.mp hw with h1 | h1
          · exact hhd w h1.symm
          · exact hl1 w h1
        · rintro ⟨l1, l2, heq, hl1⟩
          cases l1 with
          | nil =>
            simp only [List.nil_append, List.cons.injEq] at heq
            exact absurd heq.1 (hhd v)
          | cons w l1 =>
            obtain ⟨hw, htl⟩ := List.cons.inj heq
            exact ⟨l1, l2, htl, fun u hu => hl1 u (List.mem_cons_of_mem w hu)⟩

/-- Set insertion preserves freedom from duplicates. -/
theorem insertStr_nodup (env : List Str) (s : Str) (h : env.Nodup) :
    (insertStr env s).Nodup := by
  unfold insertStr
  split_ifs with hmem
  · exact h
  · rw [List.nodup_append]
    refine ⟨h, List.nodup_singleton s, ?_⟩
    intro a ha hs
    rw [List.mem_singleton] at hs
    exact hmem (hs ▸ ha)

/-- Candidate insertion preserves freedom from duplicates. -/
theorem insertCand_nodup (env : List Str) (c : Option Str) (h : env.Nodup) :
    (insertCand env c).Nodup := by
  cases c with
  | none => exact h
  | some s => exact insertStr_nodup env s h

/-- The function-body runner preserves freedom from duplicates of the
accumulated set. -/
theorem libRunOps_nodup (g : List Int) (mem : MemMap) :
    ∀ (ops : List Op) (fr : Frame) (env : List Str), env.Nodup →
      (libRunOps g mem ops fr env).2.1.Nodup := by
  intro ops
  induction ops with
  | nil => intro fr env h; exact h
  | cons op rest ih =>
    intro fr env h
    by_cases hop : op = Op.ret
    · subst hop; simpa [libRunOps] using h
    · rw [libRunOps_cons g mem op rest fr env hop]
      exact ih _ _ (insertCand_nodup env _ h)

/-- The orchestrator's function loop preserves freedom from duplicates. -/
theorem analyzeAll_nodup (g : List Int) (mem : MemMap) :
    ∀ (fs : List FuncBody) (env r : List Str), env.Nodup →
      analyzeAll g mem fs env = Except.ok r → r.Nodup := by
  intro fs
  induction fs with
  | nil => intro env r h hh; exact Except.ok.inj hh ▸ h
  | cons f rest ih =>
    intro env r h hh
    unfold analyzeAll at hh
    cases haf : analyze_function g mem f env with
    | error e => rw [haf] at hh; exact absurd hh (fun hc => Except.noConfusion hc)
    | ok env1 =>
      rw [haf] at hh
      have henv1 : env1.Nodup := by
        unfold analyze_function at haf
        split_ifs at haf
        all_goals
          first
            | exact absurd haf (fun hc => Except.noConfusion hc)
            | exact Except.ok.inj haf ▸ libRunOps_nodup g mem f.ops initFrame env h
      exact ih env1 r henv1 hh

/-- C9: whenever the scan succeeds it returns a duplicate-free,
lexicographically sorted sequence of strings; on the minimal empty module it
returns the empty sequence with no error. -/
theorem c9_sorted_nodup_output :
    (∀ (m : Module) (r : List Str), scan_wasm_bytes m = Except.ok r →
        List.Sorted strLe r ∧ r.Nodup) ∧
    scan_wasm_bytes emptyModule = Except.ok [] := by
  constructor
  · intro m r h
    unfold scan_wasm_bytes at h
    cases hd : detect_env_vars m with
    | error e => rw [hd] at h; exact absurd h (fun hc => Except.noConfusion hc)
    | ok env =>
      rw [hd] at h
      have hr : sortStrs env = r := Except.ok.inj h
      subst hr
      refine ⟨List.sorted_insertionSort strLe env, ?_⟩
      have henv : env.Nodup := by
        unfold detect_env_vars at hd
        exact analyzeAll_nodup _ _ _ _ _ List.nodup_nil hd
      exact (List.perm_insertionSort strLe env).symm.nodup henv
  · decide

/-- C9 witness: the sortedness and duplicate-freedom of the scan result,
instantiated on the empty module. -/
theorem c9_sorted_nodup_output_witness :
    List.Sorted strLe ([] : List Str) ∧ List.Nodup ([] : List Str) :=
  c9_sorted_nodup_output.1 emptyModule [] (by decide)

end Wasm2Env
